import Mathlib

/-!
# Verification of the ns-3 `Ipv4AddressGenerator` specification

The repository ships only the public header
`src/ns-3-dev/src/internet/model/ipv4-address-generator.h`, which declares the
allocator's operations and documents their contracts.  The implementation file
is not part of the repository snapshot, so the allocation engine below is
modelled from the natural-language specification (`spec.md`, sections 3, 4 and
7), with the header's documented contracts taken as authoritative where the
two speak about the same behaviour.

Addresses and masks are 32-bit values, modelled as `Nat` with explicit
bounds where overflow matters.  Fallible operations return `Except`.

Conventions:
* an `Ipv4Mask` is a 32-bit value whose binary form is a contiguous run of
  high-order ones; its prefix length is recovered with `maskLen`;
* a `NetworkKey` is the pair (aligned network value, prefix length);
* the process-wide singleton state (`GenState`) bundles the per-prefix-length
  cursors, the allocation ledger and the test-mode flag.
-/

namespace Ipv4AddressGenerator

/-- The 32-bit mask value whose binary form is `L` high-order ones followed
by `32 - L` zeros (prefix length `L`). -/
def maskOfLength (L : Nat) : Nat := 2 ^ 32 - 2 ^ (32 - L)

/-- Number of contiguous set bits of `m` counting down from bit `k - 1`. -/
def countLeadingOnes (m : Nat) : Nat → Nat
  | 0 => 0
  | k + 1 => if m.testBit k then countLeadingOnes m k + 1 else 0

/-- The prefix length of a mask value: its number of leading ones (out of
32 bits). -/
def maskLen (m : Nat) : Nat := countLeadingOnes m 32

/-- Modelled from the spec (section 3): a mask must be a contiguous
high-order run of set bits.  A 32-bit value is a well-formed mask exactly
when it is reproduced by rebuilding the mask from its own leading-ones
count. -/
def isValidMaskB (m : Nat) : Bool := m == maskOfLength (maskLen m)

/-- Propositional form of `isValidMaskB`. -/
@[reducible]
def IsValidMask (m : Nat) : Prop := isValidMaskB m = true

/-- The network step for prefix length `L`: `1 <<< (32 - L)`. -/
def netStep (L : Nat) : Nat := 2 ^ (32 - L)

/-- The all-ones host offset (broadcast offset) for prefix length `L`. -/
def hostMax (L : Nat) : Nat := 2 ^ (32 - L) - 1

/-- The network value implied by address `a` under prefix length `L`
(the address with its host bits cleared). -/
def networkOf (a L : Nat) : Nat := a / netStep L * netStep L

/-- Modelled from the spec (section 3, "Cursor entry"): for one prefix
length, the active network value, the next host offset to hand out inside
it, and the base host offset supplied at `Init` (to which `NextNetwork`
resets the host cursor). -/
structure CursorEntry where
  network : Nat
  hostOffset : Nat
  base : Nat
deriving Repr, DecidableEq

/-- Modelled from the spec (section 3, "Ledger entry"): the set of
`NetworkKey`s (value, prefix length) registered by network allocation, and
the set of individually allocated addresses. -/
structure Ledger where
  nets : List (Nat × Nat)
  addrs : List Nat
deriving Repr, DecidableEq

/-- Modelled from the spec (sections 3 and 9): the process-wide singleton
state: one optional cursor per prefix length (as an association list), the
allocation ledger, and the test-mode flag (which only downgrades fatal
errors to recoverable ones; it never changes a computed value). -/
structure GenState where
  cursors : List (Nat × CursorEntry)
  ledger : Ledger
  testMode : Bool
deriving Repr, DecidableEq

/-- The pristine state of a freshly started process: no cursors, empty
ledger, production (non-test) mode. -/
def initState : GenState := ⟨[], ⟨[], []⟩, false⟩

/-- The cursor recorded for prefix length `L`, if any. -/
def getCursor (s : GenState) (L : Nat) : Option CursorEntry :=
  match s.cursors.find? (fun p => p.1 == L) with
  | some p => some p.2
  | none => none

/-- Replace (or create) the cursor for prefix length `L`. -/
def setCursor (s : GenState) (L : Nat) (c : CursorEntry) : GenState :=
  { s with cursors := (L, c) :: s.cursors.filter (fun p => p.1 != L) }

/-- Modelled from the spec (section 7): the error taxonomy of the
allocator.  In production mode these conditions are fatal; in test mode
they surface as recoverable sentinels.  The condition itself is the same
value either way. -/
inductive AllocError where
  | exhaustedSpace
  | uninitializedMask
  | malformedMask
deriving Repr, DecidableEq

/-- Is address `a` recorded in the ledger? -/
def addrInLedger (led : Ledger) (a : Nat) : Bool := decide (a ∈ led.addrs)

/-- Is the network key `(v, L)` recorded in the ledger? -/
def netInLedger (led : Ledger) (v L : Nat) : Bool := decide ((v, L) ∈ led.nets)

/-- Record the network key `(v, L)` (no duplicates). -/
def regNet (led : Ledger) (v L : Nat) : Ledger :=
  if (v, L) ∈ led.nets then led else { led with nets := (v, L) :: led.nets }

/-- Record address `a` (no duplicates). -/
def regAddr (led : Ledger) (a : Nat) : Ledger :=
  if a ∈ led.addrs then led else { led with addrs := a :: led.addrs }

/-- Modelled from the spec (section 4.1, `Init`), for a known prefix
length `L`: make the network implied by `(net, L)` the active network for
`L`, seed the host cursor (and its base) with the host bits of `addr`, and
register the network key in the ledger.

The spec also says `Init` registers `addr` itself in the address ledger;
the header in `src/` (lines 31-43) however guarantees unconditionally that
the first `NextAddress`/`GetAddress` call returns the value passed in, and
`NextAddress` skips every address already in the ledger, which for a zero
network value would contradict that registration.  Following the header's
contract, the first allocated address is recorded by `NextAddress` itself
rather than by `Init`. -/
def InitAt (s : GenState) (net L addr : Nat) : GenState :=
  let nv := networkOf net L
  let hostBits := addr % netStep L
  let s1 := setCursor s L ⟨nv, hostBits, hostBits⟩
  { s1 with ledger := regNet s1.ledger nv L }

/-- Modelled from the spec (section 4.1, `Init`): validate the mask, then
seed the cursor and ledger via `InitAt`. -/
def Init (s : GenState) (net m addr : Nat) : Except AllocError GenState :=
  if isValidMaskB m then .ok (InitAt s net (maskLen m) addr) else .error .malformedMask

/-- Modelled from the spec (section 4.1, `InitAddress`), for a known
prefix length: reseed the host cursor with the host bits of `addr`; the
network cursor is untouched. -/
def InitAddressAt (s : GenState) (addr L : Nat) : Except AllocError GenState :=
  match getCursor s L with
  | none => .error .uninitializedMask
  | some c => .ok (setCursor s L { c with hostOffset := addr % netStep L })

/-- Modelled from the spec (section 4.1, `InitAddress`). -/
def InitAddress (s : GenState) (addr m : Nat) : Except AllocError GenState :=
  if isValidMaskB m then InitAddressAt s addr (maskLen m) else .error .malformedMask

/-- Search for the first network value of the form `cur + k * step`
(`k ≥ 1`) whose key at length `L` is not in the ledger, staying inside the
32-bit space.  `fuel` bounds the recursion; the search fails (exhaustion)
if the space runs out. -/
def findFreeNet (led : Ledger) (L step : Nat) : Nat → Nat → Option Nat
  | _, 0 => none
  | cur, fuel + 1 =>
    let cand := cur + step
    if 2 ^ 32 ≤ cand then none
    else if netInLedger led cand L then findFreeNet led L step cand fuel
    else some cand

/-- Modelled from the spec (section 4.1, `NextNetwork`), for a known
prefix length: pre-increment the active network to the lowest unallocated
value at least one network step above the current one (skipping keys
already in the ledger), reset the host cursor to the base from `Init`,
register the new key, and return the new network value. -/
def NextNetworkAt (s : GenState) (L : Nat) : Except AllocError (Nat × GenState) :=
  match getCursor s L with
  | none => .error .uninitializedMask
  | some c =>
    match findFreeNet s.ledger L (netStep L) c.network (2 ^ 32) with
    | none => .error .exhaustedSpace
    | some v =>
      let s1 := setCursor s L ⟨v, c.base, c.base⟩
      .ok (v, { s1 with ledger := regNet s1.ledger v L })

/-- Modelled from the spec (section 4.1, `NextNetwork`). -/
def NextNetwork (s : GenState) (m : Nat) : Except AllocError (Nat × GenState) :=
  if isValidMaskB m then NextNetworkAt s (maskLen m) else .error .malformedMask

/-- Modelled from the spec (section 4.1, `GetNetwork`), for a known prefix
length: pure peek of the current active network; no mutation. -/
def GetNetworkAt (s : GenState) (L : Nat) : Except AllocError Nat :=
  match getCursor s L with
  | none => .error .uninitializedMask
  | some c => .ok c.network

/-- Modelled from the spec (section 4.1, `GetNetwork`). -/
def GetNetwork (s : GenState) (m : Nat) : Except AllocError Nat :=
  if isValidMaskB m then GetNetworkAt s (maskLen m) else .error .malformedMask

/-- Search for the first host offset at or above `o` that is neither the
reserved all-zero offset, nor at or beyond the broadcast offset `hmax`,
nor an offset whose address `net + o` is already in the ledger.  `fuel`
bounds the recursion. -/
def findFreeOffset (led : Ledger) (net hmax : Nat) : Nat → Nat → Option Nat
  | _, 0 => none
  | o, fuel + 1 =>
    if hmax ≤ o then none
    else if o = 0 then findFreeOffset led net hmax 1 fuel
    else if addrInLedger led (net + o) then findFreeOffset led net hmax (o + 1) fuel
    else some o

/-- Modelled from the spec (section 4.1, `NextAddress`), for a known
prefix length: post-increment; return the pending address for the active
network (skipping reserved offsets and addresses already in the ledger),
record it in the ledger, and advance the host cursor past it.  Fails with
exhaustion when no valid offset remains before the broadcast offset. -/
def NextAddressAt (s : GenState) (L : Nat) : Except AllocError (Nat × GenState) :=
  match getCursor s L with
  | none => .error .uninitializedMask
  | some c =>
    match findFreeOffset s.ledger c.network (hostMax L) c.hostOffset (2 ^ 32) with
    | none => .error .exhaustedSpace
    | some o =>
      let a := c.network + o
      let s1 := setCursor s L { c with hostOffset := o + 1 }
      .ok (a, { s1 with ledger := regAddr s1.ledger a })

/-- Modelled from the spec (section 4.1, `NextAddress`). -/
def NextAddress (s : GenState) (m : Nat) : Except AllocError (Nat × GenState) :=
  if isValidMaskB m then NextAddressAt s (maskLen m) else .error .malformedMask

/-- Modelled from the spec (section 4.1, `GetAddress`), for a known prefix
length: pure peek of the address `NextAddress` would return next; no
mutation, no ledger registration. -/
def GetAddressAt (s : GenState) (L : Nat) : Except AllocError Nat :=
  match getCursor s L with
  | none => .error .uninitializedMask
  | some c =>
    match findFreeOffset s.ledger c.network (hostMax L) c.hostOffset (2 ^ 32) with
    | none => .error .exhaustedSpace
    | some o => .ok (c.network + o)

/-- Modelled from the spec (section 4.1, `GetAddress`). -/
def GetAddress (s : GenState) (m : Nat) : Except AllocError Nat :=
  if isValidMaskB m then GetAddressAt s (maskLen m) else .error .malformedMask

/-- Modelled from the spec (section 4.1, `Reset`): clears the cursor state
for every mask length and the ledger entirely; subsequent calls behave as
on a freshly started process. -/
def Reset (_ : GenState) : GenState := initState

/-- Modelled from the spec (section 4.2, `AddAllocated`): register `addr`
as allocated; return `false` with no mutation when it is already present,
`true` after recording it otherwise.  Total: never a fatal condition, in
either mode. -/
def AddAllocated (s : GenState) (a : Nat) : Bool × GenState :=
  if a ∈ s.ledger.addrs then (false, s)
  else (true, { s with ledger := { s.ledger with addrs := a :: s.ledger.addrs } })

/-- Modelled from the spec (section 4.2, `IsAddressAllocated`): pure
membership query against the individually registered addresses. -/
def IsAddressAllocated (s : GenState) (a : Nat) : Bool := addrInLedger s.ledger a

/-- Modelled from the spec (section 4.2, `IsNetworkAllocated`): pure
membership query against the registered `NetworkKey`s; the key is derived
from `a` under the mask's prefix length.  Total and mutation-free. -/
def IsNetworkAllocated (s : GenState) (a m : Nat) : Bool :=
  netInLedger s.ledger (networkOf a (maskLen m)) (maskLen m)

/-- Modelled from the spec (section 6, `TestMode`): flip the process-wide
test-mode flag on. -/
def TestMode (s : GenState) : GenState := { s with testMode := true }

/-- One call of the public mutating surface (everything except `Reset`,
so that call sequences "absent an intervening Reset" are exactly the
lists of `Op`). -/
inductive Op where
  | opInit (net m addr : Nat)
  | opInitAddress (addr m : Nat)
  | opNextNetwork (m : Nat)
  | opNextAddress (m : Nat)
  | opAddAllocated (addr : Nat)
  | opTestMode
deriving Repr, DecidableEq

/-- Observable event of one call: an address returned by `NextAddress`, a
network value (with its prefix length) returned by `NextNetwork`, a
network key registered by `Init`, or an error condition. -/
inductive Ev where
  | addr (a : Nat)
  | net (v L : Nat)
  | reg (v L : Nat)
  | err (e : AllocError)
deriving Repr, DecidableEq

/-- Run one call against the state, producing the successor state and the
events it emits, or the error condition it raises. -/
def runOp (s : GenState) : Op → Except AllocError (GenState × List Ev)
  | .opInit net m addr =>
    match Init s net m addr with
    | .error e => .error e
    | .ok s' => .ok (s', [.reg (networkOf net (maskLen m)) (maskLen m)])
  | .opInitAddress a m =>
    match InitAddress s a m with
    | .error e => .error e
    | .ok s' => .ok (s', [])
  | .opNextNetwork m =>
    match NextNetwork s m with
    | .error e => .error e
    | .ok p => .ok (p.2, [.net p.1 (maskLen m)])
  | .opNextAddress m =>
    match NextAddress s m with
    | .error e => .error e
    | .ok p => .ok (p.2, [.addr p.1])
  | .opAddAllocated a => .ok ((AddAllocated s a).2, [])
  | .opTestMode => .ok (TestMode s, [])

/-- Run a sequence of calls.  An error in production mode is fatal: the
event is recorded and the process stops.  In test mode the error surfaces
as a recoverable sentinel and the run continues on the unchanged state. -/
def runTrace (s : GenState) : List Op → GenState × List Ev
  | [] => (s, [])
  | op :: rest =>
    match runOp s op with
    | .ok (s', evs) => ((runTrace s' rest).1, evs ++ (runTrace s' rest).2)
    | .error e =>
      if s.testMode then ((runTrace s rest).1, .err e :: (runTrace s rest).2)
      else (s, [.err e])

/-- The addresses returned by `NextAddress` calls in an event list. -/
def evAddrVal : Ev → Option Nat
  | .addr a => some a
  | _ => none

/-- The network keys returned by `NextNetwork` calls in an event list. -/
def evNetKey : Ev → Option (Nat × Nat)
  | .net v L => some (v, L)
  | _ => none

/-- The network keys registered by `Init` or `NextNetwork`. -/
def evRegKey : Ev → Option (Nat × Nat)
  | .net v L => some (v, L)
  | .reg v L => some (v, L)
  | _ => none

/-- The raw 32-bit value returned by an allocation call (`NextAddress` or
`NextNetwork`), disregarding its kind. -/
def evAllocVal : Ev → Option Nat
  | .addr a => some a
  | .net v _ => some v
  | _ => none

/-- Addresses returned by `NextAddress` along a trace. -/
def addrEvents (evs : List Ev) : List Nat := evs.filterMap evAddrVal

/-- Network keys returned by `NextNetwork` along a trace. -/
def netEvents (evs : List Ev) : List (Nat × Nat) := evs.filterMap evNetKey

/-- Network keys registered (by `Init` or `NextNetwork`) along a trace. -/
def regKeys (evs : List Ev) : List (Nat × Nat) := evs.filterMap evRegKey

/-- All raw values returned by allocation calls along a trace. -/
def allocVals (evs : List Ev) : List Nat := evs.filterMap evAllocVal

/-- Shorthand for the state reached from the pristine state by a call
sequence. -/
def stateAfter (ops : List Op) : GenState := (runTrace initState ops).1

/-- The successor state of a successful value-returning call (the
pristine state on error); used to name concrete states in examples. -/
def postState (r : Except AllocError (Nat × GenState)) : GenState :=
  match r with
  | .ok p => p.2
  | .error _ => initState

/-- The successor state of a successful `Init`/`InitAddress` call (the
pristine state on error); used to name concrete states in examples. -/
def postStateI (r : Except AllocError GenState) : GenState :=
  match r with
  | .ok s => s
  | .error _ => initState

/-- Decidable equality for `Except`, so that concrete runs of the
fallible operations can be checked by `decide`. -/
instance {ε α : Type} [DecidableEq ε] [DecidableEq α] : DecidableEq (Except ε α) := fun a b =>
  match a, b with
  | .ok x, .ok y =>
    match decEq x y with
    | isTrue h => isTrue (h ▸ rfl)
    | isFalse h => isFalse (fun hh => h (Except.ok.inj hh))
  | .error e, .error f =>
    match decEq e f with
    | isTrue h => isTrue (h ▸ rfl)
    | isFalse h => isFalse (fun hh => h (Except.error.inj hh))
  | .ok _, .error _ => isFalse (fun hh => Except.noConfusion hh)
  | .error _, .ok _ => isFalse (fun hh => Except.noConfusion hh)

/-- The `/24` mask value `255.255.255.0`. -/
def mask24 : Nat := maskOfLength 24

/-- The `/30` mask value `255.255.255.252`. -/
def mask30 : Nat := maskOfLength 30

/-- The `/31` mask value `255.255.255.254`. -/
def mask31 : Nat := maskOfLength 31

/-- A call sequence with no `Reset` in which two allocation calls return
the same 32-bit value: the next `/30` network and the next `/31` network
coincide. -/
def c1ops : List Op :=
  [.opInit 0 mask30 1, .opInit 2 mask31 1, .opNextNetwork mask30, .opNextNetwork mask31]

/-! ## Basic lemmas about masks, ledgers and cursors -/

theorem maskLen_maskOfLength_fin : ∀ L : Fin 33, maskLen (maskOfLength L.val) = L.val := by
  decide

theorem maskLen_maskOfLength {L : Nat} (hL : L ≤ 32) : maskLen (maskOfLength L) = L :=
  maskLen_maskOfLength_fin ⟨L, by omega⟩

theorem isValidMaskB_maskOfLength {L : Nat} (hL : L ≤ 32) :
    isValidMaskB (maskOfLength L) = true := by
  simp [isValidMaskB, maskLen_maskOfLength hL]

theorem netStep_pos (L : Nat) : 0 < netStep L := Nat.pos_pow_of_pos _ (by omega)

theorem addrInLedger_iff (led : Ledger) (a : Nat) :
    addrInLedger led a = true ↔ a ∈ led.addrs := by
  simp [addrInLedger]

theorem netInLedger_iff (led : Ledger) (v L : Nat) :
    netInLedger led v L = true ↔ (v, L) ∈ led.nets := by
  simp [netInLedger]

theorem mem_regNet (led : Ledger) (v L : Nat) (k : Nat × Nat) :
    k ∈ (regNet led v L).nets ↔ k ∈ led.nets ∨ k = (v, L) := by
  by_cases h : (v, L) ∈ led.nets
  · simp only [regNet, if_pos h]
    constructor
    · exact Or.inl
    · rintro (hk | rfl)
      · exact hk
      · exact h
  · simp only [regNet, if_neg h, List.mem_cons]
    tauto

theorem regNet_addrs (led : Ledger) (v L : Nat) : (regNet led v L).addrs = led.addrs := by
  by_cases h : (v, L) ∈ led.nets <;> simp [regNet, h]

theorem mem_regAddr (led : Ledger) (a x : Nat) :
    x ∈ (regAddr led a).addrs ↔ x ∈ led.addrs ∨ x = a := by
  by_cases h : a ∈ led.addrs
  · simp only [regAddr, if_pos h]
    constructor
    · exact Or.inl
    · rintro (hk | rfl)
      · exact hk
      · exact h
  · simp only [regAddr, if_neg h, List.mem_cons]
    tauto

theorem regAddr_nets (led : Ledger) (a : Nat) : (regAddr led a).nets = led.nets := by
  by_cases h : a ∈ led.addrs <;> simp [regAddr, h]

theorem getCursor_setCursor_self (s : GenState) (L : Nat) (c : CursorEntry) :
    getCursor (setCursor s L c) L = some c := by
  simp [getCursor, setCursor, List.find?]

theorem setCursor_ledger (s : GenState) (L : Nat) (c : CursorEntry) :
    (setCursor s L c).ledger = s.ledger := rfl

theorem getCursor_ledger_irrel (s : GenState) (led : Ledger) (L : Nat) :
    getCursor { s with ledger := led } L = getCursor s L := rfl

/-! ## Characterisation of the free-offset and free-network searches -/

/-- What a successful `findFreeOffset` search guarantees: the returned
offset is at or above the start, nonzero, strictly below the broadcast
offset, its address is unallocated, and every nonzero offset passed over
on the way had an allocated address. -/
theorem findFreeOffset_spec (led : Ledger) (net hmax : Nat) :
    ∀ fuel o r, findFreeOffset led net hmax o fuel = some r →
      o ≤ r ∧ 1 ≤ r ∧ r < hmax ∧ addrInLedger led (net + r) = false ∧
        ∀ w, o ≤ w → w < r → 1 ≤ w → addrInLedger led (net + w) = true := by
  intro fuel
  induction fuel with
  | zero => intro o r h; simp [findFreeOffset] at h
  | succ n ih =>
    intro o r h
    rw [findFreeOffset] at h
    by_cases h1 : hmax ≤ o
    · simp [h1] at h
    · rw [if_neg h1] at h
      by_cases h2 : o = 0
      · rw [if_pos h2] at h
        obtain ⟨ha, hb, hc, hd, he⟩ := ih 1 r h
        refine ⟨by omega, hb, hc, hd, ?_⟩
        intro w _ hw2 hw3
        exact he w (by omega) hw2 hw3
      · rw [if_neg h2] at h
        by_cases h3 : addrInLedger led (net + o) = true
        · rw [if_pos h3] at h
          obtain ⟨ha, hb, hc, hd, he⟩ := ih (o + 1) r h
          refine ⟨by omega, hb, hc, hd, ?_⟩
          intro w hw1 hw2 hw3
          rcases Nat.eq_or_lt_of_le hw1 with rfl | hlt
          · exact h3
          · exact he w (by omega) hw2 hw3
        · rw [if_neg h3, Option.some.injEq] at h
          subst h
          exact ⟨Nat.le_refl _, by omega, by omega,
            Bool.eq_false_iff.mpr h3, fun w hw1 hw2 _ => by omega⟩

/-- A search started at or beyond the broadcast offset fails. -/
theorem findFreeOffset_none_of_ge (led : Ledger) (net hmax : Nat) (fuel o : Nat)
    (h : hmax ≤ o) : findFreeOffset led net hmax o fuel = none := by
  cases fuel with
  | zero => rfl
  | succ n => rw [findFreeOffset, if_pos h]

/-- What a successful `findFreeNet` search guarantees: the returned value
is `k` network steps above the current one for some `k ≥ 1`, fits in 32
bits, its key is unregistered, and every intermediate multiple-of-step
candidate had a registered key. -/
theorem findFreeNet_spec (led : Ledger) (L step : Nat) :
    ∀ fuel cur v, findFreeNet led L step cur fuel = some v →
      ∃ k, 1 ≤ k ∧ v = cur + k * step ∧ v < 2 ^ 32 ∧ netInLedger led v L = false ∧
        ∀ j, 1 ≤ j → j < k → netInLedger led (cur + j * step) L = true := by
  intro fuel
  induction fuel with
  | zero => intro cur v h; simp [findFreeNet] at h
  | succ n ih =>
    intro cur v h
    rw [findFreeNet] at h
    by_cases h1 : 2 ^ 32 ≤ cur + step
    · rw [if_pos h1] at h
      simp at h
    · rw [if_neg h1] at h
      by_cases h2 : netInLedger led (cur + step) L = true
      · rw [if_pos h2] at h
        obtain ⟨k, hk1, hk2, hk3, hk4, hk5⟩ := ih (cur + step) v h
        refine ⟨k + 1, by omega, by rw [hk2]; ring, hk3, hk4, ?_⟩
        intro j hj1 hj2
        rcases Nat.eq_or_lt_of_le hj1 with rfl | hlt
        · simpa using h2
        · have hrec := hk5 (j - 1) (by omega) (by omega)
          have hj : j - 1 + 1 = j := by omega
          have heq : cur + step + (j - 1) * step = cur + j * step := by
            calc cur + step + (j - 1) * step = cur + ((j - 1) + 1) * step := by ring
              _ = cur + j * step := by rw [hj]
          rwa [heq] at hrec
      · rw [if_neg h2, Option.some.injEq] at h
        subst h
        exact ⟨1, Nat.le_refl _, by ring, by omega, Bool.eq_false_iff.mpr h2,
          fun j hj1 hj2 => by omega⟩

/-! ## Bridge lemmas between mask values and prefix lengths -/

theorem countLeadingOnes_le (m : Nat) : ∀ k, countLeadingOnes m k ≤ k := by
  intro k
  induction k with
  | zero => simp [countLeadingOnes]
  | succ n ih =>
    rw [countLeadingOnes]
    split
    · omega
    · omega

theorem maskLen_le (m : Nat) : maskLen m ≤ 32 := countLeadingOnes_le m 32

theorem Init_maskOfLength (s : GenState) (net addr : Nat) {L : Nat} (hL : L ≤ 32) :
    Init s net (maskOfLength L) addr = .ok (InitAt s net L addr) := by
  rw [Init, if_pos (isValidMaskB_maskOfLength hL), maskLen_maskOfLength hL]

theorem NextAddress_maskOfLength (s : GenState) {L : Nat} (hL : L ≤ 32) :
    NextAddress s (maskOfLength L) = NextAddressAt s L := by
  rw [NextAddress, if_pos (isValidMaskB_maskOfLength hL), maskLen_maskOfLength hL]

theorem GetAddress_maskOfLength (s : GenState) {L : Nat} (hL : L ≤ 32) :
    GetAddress s (maskOfLength L) = GetAddressAt s L := by
  rw [GetAddress, if_pos (isValidMaskB_maskOfLength hL), maskLen_maskOfLength hL]

theorem NextNetwork_maskOfLength (s : GenState) {L : Nat} (hL : L ≤ 32) :
    NextNetwork s (maskOfLength L) = NextNetworkAt s L := by
  rw [NextNetwork, if_pos (isValidMaskB_maskOfLength hL), maskLen_maskOfLength hL]

theorem GetNetwork_maskOfLength (s : GenState) {L : Nat} (hL : L ≤ 32) :
    GetNetwork s (maskOfLength L) = GetNetworkAt s L := by
  rw [GetNetwork, if_pos (isValidMaskB_maskOfLength hL), maskLen_maskOfLength hL]

/-! ## Ledger bookkeeping of single calls -/

theorem InitAt_ledger (s : GenState) (net L addr : Nat) :
    (InitAt s net L addr).ledger = regNet s.ledger (networkOf net L) L := rfl

/-- The ledger bookkeeping of one successful call: at most one address
event, which is then fresh and recorded; at most one network-key event,
which is then fresh and recorded; and the ledger only ever grows. -/
theorem runOp_shape (s : GenState) (op : Op) (s' : GenState) (evs : List Ev)
    (h : runOp s op = .ok (s', evs)) :
    (addrEvents evs = [] ∨
      ∃ a, addrEvents evs = [a] ∧ a ∉ s.ledger.addrs ∧ a ∈ s'.ledger.addrs) ∧
    (netEvents evs = [] ∨
      ∃ k, netEvents evs = [k] ∧ k ∉ s.ledger.nets ∧ k ∈ s'.ledger.nets) ∧
    (∀ x ∈ s.ledger.addrs, x ∈ s'.ledger.addrs) ∧
    (∀ k ∈ s.ledger.nets, k ∈ s'.ledger.nets) := by
  cases op with
  | opInit net m addr =>
    simp only [runOp] at h
    split at h
    · exact absurd h (by simp)
    · rename_i s1 heq
      rw [Except.ok.injEq] at h
      obtain ⟨rfl, rfl⟩ := Prod.mk.injEq _ _ _ _ |>.mp h.symm
      rw [Init] at heq
      split at heq
      · rw [Except.ok.injEq] at heq
        subst heq
        refine ⟨Or.inl rfl, Or.inl rfl, ?_, ?_⟩
        · intro x hx
          rw [InitAt_ledger, regNet_addrs]
          exact hx
        · intro k hk
          rw [InitAt_ledger, mem_regNet]
          exact Or.inl hk
      · exact absurd heq (by simp)
  | opInitAddress addr m =>
    simp only [runOp] at h
    split at h
    · exact absurd h (by simp)
    · rename_i s1 heq
      rw [Except.ok.injEq] at h
      obtain ⟨rfl, rfl⟩ := Prod.mk.injEq _ _ _ _ |>.mp h.symm
      rw [InitAddress] at heq
      split at heq
      · rw [InitAddressAt] at heq
        split at heq
        · exact absurd heq (by simp)
        · rw [Except.ok.injEq] at heq
          subst heq
          exact ⟨Or.inl rfl, Or.inl rfl, fun x hx => hx, fun k hk => hk⟩
      · exact absurd heq (by simp)
  | opNextNetwork m =>
    simp only [runOp] at h
    split at h
    · exact absurd h (by simp)
    · rename_i p heq
      rw [Except.ok.injEq] at h
      obtain ⟨rfl, rfl⟩ := Prod.mk.injEq _ _ _ _ |>.mp h.symm
      rw [NextNetwork] at heq
      split at heq
      · rw [NextNetworkAt] at heq
        split at heq
        · exact absurd heq (by simp)
        · rename_i c hc
          split at heq
          · exact absurd heq (by simp)
          · rename_i v hv
            rw [Except.ok.injEq] at heq
            subst heq
            obtain ⟨k, hk1, hk2, hk3, hfree, hmid⟩ :=
              findFreeNet_spec s.ledger (maskLen m) (netStep (maskLen m)) _ _ _ hv
            have hnotmem : (v, maskLen m) ∉ s.ledger.nets := by
              intro hmem
              rw [← netInLedger_iff] at hmem
              rw [hfree] at hmem
              exact absurd hmem (by simp)
            refine ⟨Or.inl rfl, Or.inr ⟨(v, maskLen m), rfl, hnotmem, ?_⟩, ?_, ?_⟩
            · rw [mem_regNet]
              exact Or.inr rfl
            · intro x hx
              rw [regNet_addrs] at *
              exact hx
            · intro k' hk'
              rw [mem_regNet]
              exact Or.inl hk'
      · exact absurd heq (by simp)
  | opNextAddress m =>
    simp only [runOp] at h
    split at h
    · exact absurd h (by simp)
    · rename_i p heq
      rw [Except.ok.injEq] at h
      obtain ⟨rfl, rfl⟩ := Prod.mk.injEq _ _ _ _ |>.mp h.symm
      rw [NextAddress] at heq
      split at heq
      · rw [NextAddressAt] at heq
        split at heq
        · exact absurd heq (by simp)
        · rename_i c hc
          split at heq
          · exact absurd heq (by simp)
          · rename_i o ho
            rw [Except.ok.injEq] at heq
            subst heq
            obtain ⟨_, _, _, hfree, hmid⟩ :=
              findFreeOffset_spec s.ledger c.network (hostMax (maskLen m)) _ _ _ ho
            have hnotmem : c.network + o ∉ s.ledger.addrs := by
              intro hmem
              rw [← addrInLedger_iff] at hmem
              rw [hfree] at hmem
              exact absurd hmem (by simp)
            refine ⟨Or.inr ⟨c.network + o, rfl, hnotmem, ?_⟩, Or.inl rfl, ?_, ?_⟩
            · rw [mem_regAddr]
              exact Or.inr rfl
            · intro x hx
              rw [mem_regAddr]
              exact Or.inl hx
            · intro k' hk'
              rw [regAddr_nets]
              exact hk'
      · exact absurd heq (by simp)
  | opAddAllocated a =>
    simp only [runOp] at h
    rw [Except.ok.injEq] at h
    obtain ⟨rfl, rfl⟩ := Prod.mk.injEq _ _ _ _ |>.mp h.symm
    rw [AddAllocated]
    split
    · exact ⟨Or.inl rfl, Or.inl rfl, fun x hx => hx, fun k hk => hk⟩
    · refine ⟨Or.inl rfl, Or.inl rfl, ?_, fun k hk => hk⟩
      intro x hx
      exact List.mem_cons_of_mem _ hx
  | opTestMode =>
    simp only [runOp] at h
    rw [Except.ok.injEq] at h
    obtain ⟨rfl, rfl⟩ := Prod.mk.injEq _ _ _ _ |>.mp h.symm
    exact ⟨Or.inl rfl, Or.inl rfl, fun x hx => hx, fun k hk => hk⟩

/-! ## Trace equations and event algebra -/

theorem runTrace_nil (s : GenState) : runTrace s [] = (s, []) := rfl

theorem runTrace_cons_ok {s : GenState} {op : Op} {s1 : GenState} {evs : List Ev}
    (rest : List Op) (h : runOp s op = .ok (s1, evs)) :
    runTrace s (op :: rest) = ((runTrace s1 rest).1, evs ++ (runTrace s1 rest).2) := by
  rw [runTrace, h]

theorem runTrace_cons_err_test {s : GenState} {op : Op} {e : AllocError}
    (rest : List Op) (h : runOp s op = .error e) (ht : s.testMode = true) :
    runTrace s (op :: rest) = ((runTrace s rest).1, .err e :: (runTrace s rest).2) := by
  rw [runTrace, h]
  simp [ht]

theorem runTrace_cons_err_prod {s : GenState} {op : Op} {e : AllocError}
    (rest : List Op) (h : runOp s op = .error e) (ht : s.testMode = false) :
    runTrace s (op :: rest) = (s, [.err e]) := by
  rw [runTrace, h]
  simp [ht]

theorem addrEvents_append (l1 l2 : List Ev) :
    addrEvents (l1 ++ l2) = addrEvents l1 ++ addrEvents l2 := by
  simp [addrEvents]

theorem netEvents_append (l1 l2 : List Ev) :
    netEvents (l1 ++ l2) = netEvents l1 ++ netEvents l2 := by
  simp [netEvents]

theorem regKeys_append (l1 l2 : List Ev) :
    regKeys (l1 ++ l2) = regKeys l1 ++ regKeys l2 := by
  simp [regKeys]

theorem addrEvents_err (e : AllocError) (l : List Ev) :
    addrEvents (.err e :: l) = addrEvents l := rfl

theorem netEvents_err (e : AllocError) (l : List Ev) :
    netEvents (.err e :: l) = netEvents l := rfl

theorem regKeys_err (e : AllocError) (l : List Ev) :
    regKeys (.err e :: l) = regKeys l := rfl

/-! ## The registered network keys of a trace -/

/-- One successful call changes the set of registered network keys by
exactly the keys its `reg`/`net` events mention. -/
theorem runOp_regkeys (s : GenState) (op : Op) (s' : GenState) (evs : List Ev)
    (h : runOp s op = .ok (s', evs)) :
    ∀ k, k ∈ s'.ledger.nets ↔ (k ∈ s.ledger.nets ∨ k ∈ regKeys evs) := by
  cases op with
  | opInit net m addr =>
    simp only [runOp] at h
    split at h
    · exact absurd h (by simp)
    · rename_i s1 heq
      rw [Except.ok.injEq] at h
      obtain ⟨rfl, rfl⟩ := Prod.mk.injEq _ _ _ _ |>.mp h.symm
      rw [Init] at heq
      split at heq
      · rw [Except.ok.injEq] at heq
        subst heq
        intro k
        rw [InitAt_ledger, mem_regNet]
        simp [regKeys, evRegKey]
      · exact absurd heq (by simp)
  | opInitAddress addr m =>
    simp only [runOp] at h
    split at h
    · exact absurd h (by simp)
    · rename_i s1 heq
      rw [Except.ok.injEq] at h
      obtain ⟨rfl, rfl⟩ := Prod.mk.injEq _ _ _ _ |>.mp h.symm
      rw [InitAddress] at heq
      split at heq
      · rw [InitAddressAt] at heq
        split at heq
        · exact absurd heq (by simp)
        · rw [Except.ok.injEq] at heq
          subst heq
          intro k
          simp [regKeys, evRegKey, setCursor]
      · exact absurd heq (by simp)
  | opNextNetwork m =>
    simp only [runOp] at h
    split at h
    · exact absurd h (by simp)
    · rename_i p heq
      rw [Except.ok.injEq] at h
      obtain ⟨rfl, rfl⟩ := Prod.mk.injEq _ _ _ _ |>.mp h.symm
      rw [NextNetwork] at heq
      split at heq
      · rw [NextNetworkAt] at heq
        split at heq
        · exact absurd heq (by simp)
        · split at heq
          · exact absurd heq (by simp)
          · rw [Except.ok.injEq] at heq
            subst heq
            intro k
            rw [mem_regNet]
            simp [regKeys, evRegKey, setCursor]
      · exact absurd heq (by simp)
  | opNextAddress m =>
    simp only [runOp] at h
    split at h
    · exact absurd h (by simp)
    · rename_i p heq
      rw [Except.ok.injEq] at h
      obtain ⟨rfl, rfl⟩ := Prod.mk.injEq _ _ _ _ |>.mp h.symm
      rw [NextAddress] at heq
      split at heq
      · rw [NextAddressAt] at heq
        split at heq
        · exact absurd heq (by simp)
        · split at heq
          · exact absurd heq (by simp)
          · rw [Except.ok.injEq] at heq
            subst heq
            intro k
            rw [regAddr_nets]
            simp [regKeys, evRegKey, setCursor]
      · exact absurd heq (by simp)
  | opAddAllocated a =>
    simp only [runOp] at h
    rw [Except.ok.injEq] at h
    obtain ⟨rfl, rfl⟩ := Prod.mk.injEq _ _ _ _ |>.mp h.symm
    intro k
    rw [AddAllocated]
    split <;> simp [regKeys]
  | opTestMode =>
    simp only [runOp] at h
    rw [Except.ok.injEq] at h
    obtain ⟨rfl, rfl⟩ := Prod.mk.injEq _ _ _ _ |>.mp h.symm
    intro k
    simp [regKeys, TestMode]

/-- Along any trace, the ledger's registered network keys are exactly the
starting keys plus the keys registered by `Init`/`NextNetwork` calls of
the trace. -/
theorem runTrace_regkeys (ops : List Op) : ∀ (s : GenState) (k : Nat × Nat),
    k ∈ (runTrace s ops).1.ledger.nets ↔
      (k ∈ s.ledger.nets ∨ k ∈ regKeys (runTrace s ops).2) := by
  induction ops with
  | nil => intro s k; simp [runTrace_nil, regKeys]
  | cons op rest ih =>
    intro s k
    cases hop : runOp s op with
    | ok p =>
      obtain ⟨s1, evs⟩ := p
      rw [runTrace_cons_ok rest hop]
      have h1 := ih s1 k
      have h2 := runOp_regkeys s op s1 evs hop k
      simp only [regKeys_append, List.mem_append] at *
      rw [h1, h2]
      tauto
    | error e =>
      by_cases ht : s.testMode = true
      · rw [runTrace_cons_err_test rest hop ht, regKeys_err]
        exact ih s k
      · rw [runTrace_cons_err_prod rest hop (by simpa using ht)]
        simp [regKeys, evRegKey]

/-! ## Uniqueness of allocated values along a trace -/

/-- The allocation-uniqueness invariant: along any trace, the addresses
returned by `NextAddress` are pairwise distinct and all fresh relative to
the starting ledger, and likewise for the network keys returned by
`NextNetwork`. -/
theorem runTrace_nodup (ops : List Op) : ∀ s : GenState,
    ((addrEvents (runTrace s ops).2).Nodup ∧
      ∀ a ∈ addrEvents (runTrace s ops).2, a ∉ s.ledger.addrs) ∧
    ((netEvents (runTrace s ops).2).Nodup ∧
      ∀ k ∈ netEvents (runTrace s ops).2, k ∉ s.ledger.nets) := by
  induction ops with
  | nil => intro s; simp [runTrace_nil, addrEvents, netEvents]
  | cons op rest ih =>
    intro s
    cases hop : runOp s op with
    | ok p =>
      obtain ⟨s1, evs⟩ := p
      rw [runTrace_cons_ok rest hop]
      obtain ⟨⟨ihA1, ihA2⟩, ihN1, ihN2⟩ := ih s1
      obtain ⟨hA, hN, monoA, monoN⟩ := runOp_shape s op s1 evs hop
      constructor
      · rw [addrEvents_append]
        rcases hA with hA0 | ⟨a, ha1, ha2, ha3⟩
        · rw [hA0, List.nil_append]
          refine ⟨ihA1, ?_⟩
          intro x hx hmem
          exact ihA2 x hx (monoA x hmem)
        · rw [ha1, List.singleton_append]
          refine ⟨List.nodup_cons.mpr ⟨fun hmem => ihA2 a hmem ha3, ihA1⟩, ?_⟩
          intro x hx hmem
          rcases List.mem_cons.mp hx with rfl | hx'
          · exact ha2 hmem
          · exact ihA2 x hx' (monoA x hmem)
      · rw [netEvents_append]
        rcases hN with hN0 | ⟨k, hk1, hk2, hk3⟩
        · rw [hN0, List.nil_append]
          refine ⟨ihN1, ?_⟩
          intro x hx hmem
          exact ihN2 x hx (monoN x hmem)
        · rw [hk1, List.singleton_append]
          refine ⟨List.nodup_cons.mpr ⟨fun hmem => ihN2 k hmem hk3, ihN1⟩, ?_⟩
          intro x hx hmem
          rcases List.mem_cons.mp hx with rfl | hx'
          · exact hk2 hmem
          · exact ihN2 x hx' (monoN x hmem)
    | error e =>
      by_cases ht : s.testMode = true
      · rw [runTrace_cons_err_test rest hop ht, addrEvents_err, netEvents_err]
        exact ih s
      · rw [runTrace_cons_err_prod rest hop (by simpa using ht)]
        simp [addrEvents, netEvents, evAddrVal, evNetKey]

/-! ## Single-step evaluation lemmas -/

/-- One step of the free-offset search, with the fuel argument kept
abstract. -/
theorem findFreeOffset_step (led : Ledger) (net hmax o fuel : Nat) (hf : 0 < fuel) :
    findFreeOffset led net hmax o fuel =
      if hmax ≤ o then none
      else if o = 0 then findFreeOffset led net hmax 1 (fuel - 1)
      else if addrInLedger led (net + o) then findFreeOffset led net hmax (o + 1) (fuel - 1)
      else some o := by
  obtain ⟨n, rfl⟩ : ∃ n, fuel = n + 1 := ⟨fuel - 1, by omega⟩
  rw [findFreeOffset]
  simp

/-- A `NextAddressAt` call whose pending offset is directly usable
(nonzero, below broadcast, unallocated) returns it and advances past
it. -/
theorem NextAddressAt_free (s : GenState) (L : Nat) (c : CursorEntry)
    (hc : getCursor s L = some c)
    (h0 : 0 < c.hostOffset) (hlt : c.hostOffset < hostMax L)
    (hfree : addrInLedger s.ledger (c.network + c.hostOffset) = false) :
    NextAddressAt s L = .ok (c.network + c.hostOffset,
      { setCursor s L { c with hostOffset := c.hostOffset + 1 } with
          ledger := regAddr s.ledger (c.network + c.hostOffset) }) := by
  have hfind : findFreeOffset s.ledger c.network (hostMax L) c.hostOffset (2 ^ 32) =
      some c.hostOffset := by
    rw [findFreeOffset_step _ _ _ _ _ (Nat.pos_pow_of_pos 32 (by omega))]
    rw [if_neg (by omega), if_neg (by omega), if_neg (by simp [hfree])]
  rw [NextAddressAt]
  split
  · rename_i hc2
    rw [hc2] at hc
    cases hc
  · rename_i c2 hc2
    rw [hc2, Option.some.injEq] at hc
    subst hc
    split
    · rename_i hf2
      rw [hfind] at hf2
      cases hf2
    · rename_i o ho
      rw [hfind, Option.some.injEq] at ho
      subst ho
      rfl

/-- A `GetAddressAt` call whose pending offset is directly usable peeks
exactly that offset's address. -/
theorem GetAddressAt_free (s : GenState) (L : Nat) (c : CursorEntry)
    (hc : getCursor s L = some c)
    (h0 : 0 < c.hostOffset) (hlt : c.hostOffset < hostMax L)
    (hfree : addrInLedger s.ledger (c.network + c.hostOffset) = false) :
    GetAddressAt s L = .ok (c.network + c.hostOffset) := by
  have hfind : findFreeOffset s.ledger c.network (hostMax L) c.hostOffset (2 ^ 32) =
      some c.hostOffset := by
    rw [findFreeOffset_step _ _ _ _ _ (Nat.pos_pow_of_pos 32 (by omega))]
    rw [if_neg (by omega), if_neg (by omega), if_neg (by simp [hfree])]
  rw [GetAddressAt]
  split
  · rename_i hc2
    rw [hc2] at hc
    cases hc
  · rename_i c2 hc2
    rw [hc2, Option.some.injEq] at hc
    subst hc
    split
    · rename_i hf2
      rw [hfind] at hf2
      cases hf2
    · rename_i o ho
      rw [hfind, Option.some.injEq] at ho
      subst ho
      rfl

/-- Inversion of a successful `GetAddressAt` peek. -/
theorem GetAddressAt_ok_inv (s : GenState) (L X : Nat)
    (h : GetAddressAt s L = .ok X) :
    ∃ c o, getCursor s L = some c ∧
      findFreeOffset s.ledger c.network (hostMax L) c.hostOffset (2 ^ 32) = some o ∧
      X = c.network + o := by
  rw [GetAddressAt] at h
  split at h
  · exact absurd h (by simp)
  · rename_i c hc
    split at h
    · exact absurd h (by simp)
    · rename_i o ho
      rw [Except.ok.injEq] at h
      exact ⟨c, o, hc, ho, h.symm⟩

/-! ## The claims -/

/-- C1 (amended): along any call sequence without `Reset`, the addresses
returned by `NextAddress` are pairwise distinct, and the (value, prefix
length) keys returned by `NextNetwork` are pairwise distinct; a returned
value is never a value already recorded in the ledger for its own kind
and prefix length.  (The original claim, that no two returned raw values
are ever equal across kinds and prefix lengths, fails: see
`C1_counterexample`.) -/
theorem C1_uniqueness (ops : List Op) :
    (addrEvents (runTrace initState ops).2).Nodup ∧
    (netEvents (runTrace initState ops).2).Nodup := by
  obtain ⟨⟨h1, _⟩, h2, _⟩ := runTrace_nodup ops initState
  exact ⟨h1, h2⟩

/-- C1 counterexample: with no intervening `Reset`, `NextNetwork(/30)`
returns the value 4 and registers it in the ledger, and the subsequent
allocation call `NextNetwork(/31)` returns the value 4 again — the
returned values of the sequence are not pairwise distinct. -/
theorem C1_counterexample :
    (runTrace initState c1ops).2 = [.reg 0 30, .reg 2 31, .net 4 30, .net 4 31] ∧
    allocVals (runTrace initState c1ops).2 = [4, 4] ∧
    ¬ (allocVals (runTrace initState c1ops).2).Nodup := by
  refine ⟨by decide, by decide, by decide⟩

/-- C2: `IsNetworkAllocated(addr, mask)` is true exactly when the network
key derived from `addr` under `mask` was registered by a network
allocation (`Init` or `NextNetwork`) of the trace — independent of which
host addresses were allocated (address events contribute nothing to
`regKeys`).  The query itself is a pure function of the state: it mutates
nothing. -/
theorem C2_isNetworkAllocated (ops : List Op) (a m : Nat) (_hm : IsValidMask m) :
    IsNetworkAllocated (runTrace initState ops).1 a m = true ↔
      (networkOf a (maskLen m), maskLen m) ∈ regKeys (runTrace initState ops).2 := by
  rw [IsNetworkAllocated, netInLedger_iff, runTrace_regkeys]
  simp [initState]

/-- Witness for C2 at a concrete trace: after `Init(0, /30)`, the query
for address 2 under `/30` answers true exactly because `(0, 30)` was
registered. -/
theorem C2_witness :
    IsNetworkAllocated (runTrace initState [.opInit 0 mask30 1]).1 2 mask30 = true ↔
      (networkOf 2 (maskLen mask30), maskLen mask30) ∈
        regKeys (runTrace initState [.opInit 0 mask30 1]).2 :=
  C2_isNetworkAllocated [.opInit 0 mask30 1] 2 mask30 (by decide)

/-- Inversion of a successful `NextAddressAt` call: it found a cursor, a
free offset at or above it, returned the corresponding address, bumped
the host cursor just past that offset, and recorded the address. -/
theorem NextAddressAt_ok_inv (s : GenState) (L a : Nat) (s' : GenState)
    (h : NextAddressAt s L = .ok (a, s')) :
    ∃ c o, getCursor s L = some c ∧
      findFreeOffset s.ledger c.network (hostMax L) c.hostOffset (2 ^ 32) = some o ∧
      a = c.network + o ∧
      getCursor s' L = some { c with hostOffset := o + 1 } ∧
      s'.ledger = regAddr s.ledger (c.network + o) := by
  rw [NextAddressAt] at h
  split at h
  · exact absurd h (by simp)
  · rename_i c hc
    split at h
    · exact absurd h (by simp)
    · rename_i o ho
      rw [Except.ok.injEq] at h
      obtain ⟨rfl, rfl⟩ := Prod.mk.injEq _ _ _ _ |>.mp h.symm
      exact ⟨c, o, hc, ho, rfl, getCursor_setCursor_self _ _ _, rfl⟩

/-- A `NextAddressAt` call whose host cursor already sits at or beyond the
broadcast offset raises `ExhaustedSpace`. -/
theorem NextAddressAt_exhausted (s : GenState) (L : Nat) (c : CursorEntry)
    (hc : getCursor s L = some c) (hge : hostMax L ≤ c.hostOffset) :
    NextAddressAt s L = .error .exhaustedSpace := by
  rw [NextAddressAt]
  split
  · rename_i hc2
    rw [hc2] at hc
    cases hc
  · rename_i c2 hc2
    rw [hc2, Option.some.injEq] at hc
    subst hc
    split
    · rfl
    · rename_i o ho
      rw [findFreeOffset_none_of_ge _ _ _ _ _ hge] at ho
      cases ho

/-- C4: under a `/30` mask, any two consecutive successful `NextAddress`
calls exhaust the two usable host offsets, and a third call raises
`ExhaustedSpace` instead of wrapping into the reserved all-zero or
all-one host offsets.  (The error value is the same in production and
test mode; the mode only decides whether it is fatal or a recoverable
sentinel.) -/
theorem C4_exhaustion (s s1 s2 : GenState) (a1 a2 : Nat)
    (h1 : NextAddress s mask30 = .ok (a1, s1))
    (h2 : NextAddress s1 mask30 = .ok (a2, s2)) :
    NextAddress s2 mask30 = .error .exhaustedSpace := by
  have h32 : (30 : Nat) ≤ 32 := by omega
  rw [mask30, NextAddress_maskOfLength s h32] at h1
  rw [mask30, NextAddress_maskOfLength s1 h32] at h2
  rw [mask30, NextAddress_maskOfLength s2 h32]
  obtain ⟨c, o1, hc, ho1, ha1, hcur1, hled1⟩ := NextAddressAt_ok_inv _ _ _ _ h1
  obtain ⟨c', o2, hc', ho2, ha2, hcur2, hled2⟩ := NextAddressAt_ok_inv _ _ _ _ h2
  rw [hcur1, Option.some.injEq] at hc'
  subst hc'
  obtain ⟨hle1, h11, hlt1, _, _⟩ := findFreeOffset_spec _ _ _ _ _ _ ho1
  obtain ⟨hle2, h12, hlt2, _, _⟩ := findFreeOffset_spec _ _ _ _ _ _ ho2
  have hle2' : o1 + 1 ≤ o2 := hle2
  have hmax : hostMax 30 = 3 := by decide
  rw [hmax] at hlt1 hlt2
  refine NextAddressAt_exhausted s2 30 _ hcur2 ?_
  show hostMax 30 ≤ o2 + 1
  rw [hmax]
  omega

/-- Witness for C4: the spec's own scenario — `Init(0.0.0.0, /30,
0.0.0.1)`, two successful `NextAddress` calls returning offsets 1 and 2,
then the third call raises `ExhaustedSpace`. -/
theorem C4_witness :
    NextAddress (stateAfter
      [.opInit 0 mask30 1, .opNextAddress mask30, .opNextAddress mask30]) mask30 =
      .error .exhaustedSpace :=
  C4_exhaustion (stateAfter [.opInit 0 mask30 1])
    (stateAfter [.opInit 0 mask30 1, .opNextAddress mask30])
    (stateAfter [.opInit 0 mask30 1, .opNextAddress mask30, .opNextAddress mask30])
    1 2 (by decide) (by decide)

/-- C8: `Reset` restores the pristine process state: every address
allocated before the reset is no longer reported allocated, and any call
sequence after the reset behaves exactly as on a freshly started
process (in particular, re-running the same `Init` produces the same
first allocation). -/
theorem C8_reset (s : GenState) (a : Nat) (ops : List Op)
    (_h : IsAddressAllocated s a = true) :
    IsAddressAllocated (Reset s) a = false ∧
    runTrace (Reset s) ops = runTrace initState ops := by
  exact ⟨by simp [Reset, IsAddressAllocated, addrInLedger, initState], rfl⟩

/-- Witness for C8: address 5 is allocated, the reset forgets it, and an
`Init`-trace replays identically to the pristine state. -/
theorem C8_witness :
    IsAddressAllocated (Reset (AddAllocated initState 5).2) 5 = false ∧
    runTrace (Reset (AddAllocated initState 5).2) [.opInit 0 mask30 1] =
      runTrace initState [.opInit 0 mask30 1] :=
  C8_reset (AddAllocated initState 5).2 5 [.opInit 0 mask30 1] (by decide)

/-- C9: `AddAllocated` returns false and leaves the state untouched when
the address is already allocated, and returns true and records exactly
that address otherwise (cursors and network keys unchanged).  Together
with `IsAddressAllocated` and `IsNetworkAllocated` it is a total
function into `Bool × GenState` (respectively `Bool`): no error path
exists, in production or test mode. -/
theorem C9_addAllocated (s : GenState) (a : Nat) :
    (IsAddressAllocated s a = true → AddAllocated s a = (false, s)) ∧
    (IsAddressAllocated s a = false →
      (AddAllocated s a).1 = true ∧
      (AddAllocated s a).2.ledger.addrs = a :: s.ledger.addrs ∧
      (AddAllocated s a).2.ledger.nets = s.ledger.nets ∧
      (AddAllocated s a).2.cursors = s.cursors ∧
      IsAddressAllocated (AddAllocated s a).2 a = true) := by
  constructor
  · intro h
    rw [IsAddressAllocated, addrInLedger_iff] at h
    rw [AddAllocated, if_pos h]
  · intro h
    have h' : a ∉ s.ledger.addrs := by
      intro hmem
      rw [IsAddressAllocated] at h
      rw [(addrInLedger_iff _ _).mpr hmem] at h
      cases h
    rw [AddAllocated, if_neg h']
    refine ⟨rfl, rfl, rfl, rfl, ?_⟩
    rw [IsAddressAllocated, addrInLedger_iff]
    exact List.mem_cons_self _ _

/-- Witness for C9: registering address 7 in the pristine state succeeds
and is then reported allocated. -/
theorem C9_witness :
    (AddAllocated initState 7).1 = true ∧
    IsAddressAllocated (AddAllocated initState 7).2 7 = true :=
  ⟨((C9_addAllocated initState 7).2 (by decide)).1,
    ((C9_addAllocated initState 7).2 (by decide)).2.2.2.2⟩

/-- C3: if the pending value of `NextAddress(mask)` is `X` (as witnessed
by the pure peek `GetAddress`), and `AddAllocated(X)` is called first,
then the following `NextAddress(mask)` call skips `X`: it returns an
address `Y` strictly beyond `X`, unallocated at the time of the call,
such that everything strictly between `X` and `Y` was already
allocated — i.e. `Y` is the next valid address after `X`. -/
theorem C3_skip (s s2 s3 : GenState) (m X Y : Nat)
    (hget : GetAddress s m = .ok X)
    (hadd : AddAllocated s X = (true, s2))
    (hnext : NextAddress s2 m = .ok (Y, s3)) :
    X < Y ∧ IsAddressAllocated s2 X = true ∧ IsAddressAllocated s2 Y = false ∧
      ∀ Z, X < Z → Z < Y → IsAddressAllocated s2 Z = true := by
  rw [GetAddress] at hget
  split at hget
  case isFalse => exact absurd hget (by simp)
  case isTrue hv =>
  obtain ⟨c, o, hc, ho, hX⟩ := GetAddressAt_ok_inv _ _ _ hget
  obtain ⟨hleX, h1X, hltX, hfreeX, hmidX⟩ := findFreeOffset_spec _ _ _ _ _ _ ho
  have hXnot : X ∉ s.ledger.addrs := by
    intro hmem
    rw [hX, ← addrInLedger_iff] at hmem
    rw [hfreeX] at hmem
    cases hmem
  rw [AddAllocated, if_neg hXnot] at hadd
  obtain ⟨_, rfl⟩ := Prod.mk.injEq _ _ _ _ |>.mp hadd
  rw [NextAddress, if_pos hv] at hnext
  obtain ⟨c2, o2, hc2, ho2, hY, _, _⟩ := NextAddressAt_ok_inv _ _ _ _ hnext
  have hc2' : c = c2 := by
    have hcs : getCursor { s with ledger := { s.ledger with addrs := X :: s.ledger.addrs } }
        (maskLen m) = some c := hc
    rw [hcs, Option.some.injEq] at hc2
    exact hc2
  subst hc2'
  obtain ⟨hleY, h1Y, hltY, hfreeY, hmidY⟩ := findFreeOffset_spec _ _ _ _ _ _ ho2
  have hYnotmem : c.network + o2 ∉ X :: s.ledger.addrs := by
    intro hmem
    have h2 : addrInLedger ⟨s.ledger.nets, X :: s.ledger.addrs⟩ (c.network + o2) = true :=
      (addrInLedger_iff ⟨s.ledger.nets, X :: s.ledger.addrs⟩ _).mpr hmem
    have hcontra : (false : Bool) = true := hfreeY.symm.trans h2
    cases hcontra
  have hoo : o < o2 := by
    rcases Nat.lt_trichotomy o2 o with hlt2 | heq | hgt
    · exfalso
      have hin := hmidX o2 hleY hlt2 h1Y
      rw [addrInLedger_iff] at hin
      exact hYnotmem (List.mem_cons_of_mem _ hin)
    · exfalso
      subst heq
      exact hYnotmem (hX ▸ List.mem_cons_self _ _)
    · exact hgt
  refine ⟨by omega, ?_, ?_, ?_⟩
  · rw [IsAddressAllocated, addrInLedger_iff]
    exact hX ▸ List.mem_cons_self X s.ledger.addrs
  · rw [hY, IsAddressAllocated]
    exact hfreeY
  · intro Z hZ1 hZ2
    have hZw : Z = c.network + (Z - c.network) := by omega
    have hw1 : c.hostOffset ≤ Z - c.network := by omega
    have hw2 : Z - c.network < o2 := by omega
    have hw3 : 1 ≤ Z - c.network := by omega
    have hmm := hmidY (Z - c.network) hw1 hw2 hw3
    rw [IsAddressAllocated, hZw]
    exact hmm

/-- Witness for C3: in the `/30` network 0 with pending address 1,
registering 1 through `AddAllocated` first makes the following
`NextAddress` skip it and return 2. -/
theorem C3_witness :
    (1 : Nat) < 2 ∧
    IsAddressAllocated (AddAllocated (stateAfter [.opInit 0 mask30 1]) 1).2 2 = false :=
  ⟨(C3_skip (stateAfter [.opInit 0 mask30 1])
      (AddAllocated (stateAfter [.opInit 0 mask30 1]) 1).2
      (postState (NextAddress (AddAllocated (stateAfter [.opInit 0 mask30 1]) 1).2 mask30))
      mask30 1 2 (by decide) (by decide) (by decide)).1,
   (C3_skip (stateAfter [.opInit 0 mask30 1])
      (AddAllocated (stateAfter [.opInit 0 mask30 1]) 1).2
      (postState (NextAddress (AddAllocated (stateAfter [.opInit 0 mask30 1]) 1).2 mask30))
      mask30 1 2 (by decide) (by decide) (by decide)).2.2.1⟩

/-- C5: after `Init(net, mask, addr)` on a fresh process (with `net`
aligned to the mask and `addr` a nonzero host offset leaving room for a
successor), the first `NextAddress(mask)` call returns `addr` combined
with the active network, and the second call returns the next host
offset. -/
theorem C5_init_first (net L addr : Nat) (s1 : GenState) (hL : L ≤ 32)
    (hnet : networkOf net L = net) (h0 : 0 < addr) (hlt : addr + 1 < hostMax L)
    (hinit : Init initState net (maskOfLength L) addr = .ok s1) :
    (NextAddress s1 (maskOfLength L)).map Prod.fst = .ok (net + addr) ∧
    ∀ v s2, NextAddress s1 (maskOfLength L) = .ok (v, s2) →
      (NextAddress s2 (maskOfLength L)).map Prod.fst = .ok (net + addr + 1) := by
  rw [Init_maskOfLength _ _ _ hL, Except.ok.injEq] at hinit
  subst hinit
  have hstep : addr < netStep L := by
    have : hostMax L = netStep L - 1 := rfl
    have hp := netStep_pos L
    omega
  have hmod : addr % netStep L = addr := Nat.mod_eq_of_lt hstep
  have hc1 : getCursor (InitAt initState net L addr) L =
      some ⟨networkOf net L, addr % netStep L, addr % netStep L⟩ :=
    getCursor_setCursor_self _ _ _
  rw [hnet, hmod] at hc1
  have haddrs1 : (InitAt initState net L addr).ledger.addrs = [] := by
    rw [InitAt_ledger, regNet_addrs]
    rfl
  have hfree1 : addrInLedger (InitAt initState net L addr).ledger (net + addr) = false := by
    simp [addrInLedger, haddrs1]
  have hfirst : NextAddressAt (InitAt initState net L addr) L =
      .ok (net + addr,
        { setCursor (InitAt initState net L addr) L ⟨net, addr + 1, addr⟩ with
            ledger := regAddr (InitAt initState net L addr).ledger (net + addr) }) :=
    NextAddressAt_free (InitAt initState net L addr) L ⟨net, addr, addr⟩ hc1 h0
      (show addr < hostMax L by omega) hfree1
  constructor
  · rw [NextAddress_maskOfLength _ hL, hfirst]
    rfl
  · intro v s2 hv
    rw [NextAddress_maskOfLength _ hL, hfirst, Except.ok.injEq] at hv
    obtain ⟨rfl, rfl⟩ := Prod.mk.injEq _ _ _ _ |>.mp hv.symm
    have hc2 : getCursor ({ setCursor (InitAt initState net L addr) L ⟨net, addr + 1, addr⟩ with
        ledger := regAddr (InitAt initState net L addr).ledger (net + addr) } : GenState) L =
        some ⟨net, addr + 1, addr⟩ := getCursor_setCursor_self _ _ _
    have haddrs2 : (regAddr (InitAt initState net L addr).ledger (net + addr)).addrs =
        [net + addr] := by
      rw [regAddr, if_neg (by simp [haddrs1])]
      simp [haddrs1]
    have hfree2 : addrInLedger (regAddr (InitAt initState net L addr).ledger (net + addr))
        (net + (addr + 1)) = false := by
      simp [addrInLedger, haddrs2]
    rw [show (net + addr + 1) = net + (addr + 1) by omega]
    rw [NextAddress_maskOfLength _ hL,
      NextAddressAt_free _ L ⟨net, addr + 1, addr⟩ hc2 (by show 0 < addr + 1; omega)
        (show addr + 1 < hostMax L by omega) hfree2]
    rfl

/-- Witness for C5: the spec's scenario `Init(10.1.1.0, /24, 0.0.0.3)` —
the first `NextAddress(/24)` returns `10.1.1.3` and the second returns
`10.1.1.4`. -/
theorem C5_witness :
    (NextAddress (postStateI (Init initState 0x0A010100 (maskOfLength 24) 3))
        (maskOfLength 24)).map Prod.fst = .ok (0x0A010100 + 3) ∧
    (NextAddress (postState (NextAddress
        (postStateI (Init initState 0x0A010100 (maskOfLength 24) 3)) (maskOfLength 24)))
        (maskOfLength 24)).map Prod.fst = .ok (0x0A010100 + 3 + 1) :=
  ⟨(C5_init_first 0x0A010100 24 3 (postStateI (Init initState 0x0A010100 (maskOfLength 24) 3))
      (by omega) (by decide) (by omega) (by decide) (by decide)).1,
   (C5_init_first 0x0A010100 24 3 (postStateI (Init initState 0x0A010100 (maskOfLength 24) 3))
      (by omega) (by decide) (by omega) (by decide) (by decide)).2
    0x0A010103
    (postState (NextAddress (postStateI (Init initState 0x0A010100 (maskOfLength 24) 3))
      (maskOfLength 24)))
    (by decide)⟩

/-- C10: immediately after `Init(net, mask, addr)` on a fresh process,
already the pure peek `GetAddress(mask)` — not only `NextAddress` —
returns the initialisation value combined with the active network, and
being a pure function of the state it mutates nothing. -/
theorem C10_getAddress_after_init (net L addr : Nat) (s1 : GenState) (hL : L ≤ 32)
    (hnet : networkOf net L = net) (h0 : 0 < addr) (hlt : addr < hostMax L)
    (hinit : Init initState net (maskOfLength L) addr = .ok s1) :
    GetAddress s1 (maskOfLength L) = .ok (net + addr) := by
  rw [Init_maskOfLength _ _ _ hL, Except.ok.injEq] at hinit
  subst hinit
  have hstep : addr < netStep L := by
    have : hostMax L = netStep L - 1 := rfl
    have hp := netStep_pos L
    omega
  have hmod : addr % netStep L = addr := Nat.mod_eq_of_lt hstep
  have hc1 : getCursor (InitAt initState net L addr) L =
      some ⟨networkOf net L, addr % netStep L, addr % netStep L⟩ :=
    getCursor_setCursor_self _ _ _
  rw [hnet, hmod] at hc1
  have haddrs1 : (InitAt initState net L addr).ledger.addrs = [] := by
    rw [InitAt_ledger, regNet_addrs]
    rfl
  have hfree1 : addrInLedger (InitAt initState net L addr).ledger (net + addr) = false := by
    simp [addrInLedger, haddrs1]
  rw [GetAddress_maskOfLength _ hL]
  exact GetAddressAt_free _ L ⟨net, addr, addr⟩ hc1 h0 hlt hfree1

/-- Witness for C10: after `Init(10.1.1.0, /24, 0.0.0.3)`, the first
`GetAddress(/24)` already peeks `10.1.1.3`. -/
theorem C10_witness :
    GetAddress (postStateI (Init initState 0x0A010100 (maskOfLength 24) 3))
      (maskOfLength 24) = .ok (0x0A010100 + 3) :=
  C10_getAddress_after_init 0x0A010100 24 3
    (postStateI (Init initState 0x0A010100 (maskOfLength 24) 3))
    (by omega) (by decide) (by decide) (by decide) (by decide)

/-- C6: `NextNetwork(mask)` is a pre-increment: it advances the active
network for the mask's prefix length to the lowest unallocated value at
least one network step `1 <<< (32 - L)` above the current one — every
step-aligned value passed over was already registered — registers the
returned value, resets the host cursor to the `Init` base, and returns
the new network value (so repeated `/30` calls advance by 4 each
time). -/
theorem C6_nextNetwork (s : GenState) (m : Nat) (c : CursorEntry) (v : Nat) (s' : GenState)
    (hm : IsValidMask m) (hc : getCursor s (maskLen m) = some c)
    (hnext : NextNetwork s m = .ok (v, s')) :
    c.network + netStep (maskLen m) ≤ v ∧
    netStep (maskLen m) ∣ (v - c.network) ∧
    netInLedger s.ledger v (maskLen m) = false ∧
    (∀ u, c.network + netStep (maskLen m) ≤ u → u < v →
      netStep (maskLen m) ∣ (u - c.network) → netInLedger s.ledger u (maskLen m) = true) ∧
    getCursor s' (maskLen m) = some ⟨v, c.base, c.base⟩ ∧
    netInLedger s'.ledger v (maskLen m) = true := by
  rw [NextNetwork, if_pos hm, NextNetworkAt] at hnext
  split at hnext
  · rename_i hc0
    rw [hc0] at hc
    cases hc
  · rename_i c2 hc2
    have hcc : c = c2 := by
      rw [hc2, Option.some.injEq] at hc
      exact hc.symm
    subst hcc
    split at hnext
    · exact absurd hnext (by simp)
    · rename_i v2 hv2
      rw [Except.ok.injEq] at hnext
      obtain ⟨rfl, rfl⟩ := Prod.mk.injEq _ _ _ _ |>.mp hnext.symm
      obtain ⟨k, hk1, hk2, hk3, hfree, hmid⟩ := findFreeNet_spec _ _ _ _ _ _ hv2
      have hstep := netStep_pos (maskLen m)
      have hkstep : netStep (maskLen m) ≤ k * netStep (maskLen m) :=
        Nat.le_mul_of_pos_left _ hk1
      refine ⟨?_, ?_, hfree, ?_, getCursor_setCursor_self _ _ _, ?_⟩
      · rw [hk2]
        exact Nat.add_le_add_left hkstep _
      · rw [hk2, Nat.add_sub_cancel_left]
        exact dvd_mul_left _ _
      · intro u hu1 hu2 hdvd
        obtain ⟨t, ht⟩ := hdvd
        have hu3 : c.network ≤ u := by omega
        have hut : u = c.network + netStep (maskLen m) * t := by
          rw [← ht]
          omega
        have ht1 : 1 ≤ t := by
          rcases Nat.eq_zero_or_pos t with h0t | h1t
          · subst h0t
            rw [Nat.mul_zero, Nat.add_zero] at hut
            omega
          · exact h1t
        have htk : t < k := by
          rw [hk2] at hu2
          have h2 : netStep (maskLen m) * t < k * netStep (maskLen m) := by omega
          rw [Nat.mul_comm k] at h2
          exact Nat.lt_of_mul_lt_mul_left h2
        have hmm := hmid t ht1 htk
        rw [hut, Nat.mul_comm (netStep (maskLen m)) t]
        exact hmm
      · rw [netInLedger_iff]
        exact (mem_regNet _ _ _ _).mpr (Or.inr rfl)

/-- Witness for C6: from the `/30` state with active network 0, the
pre-increment returns 4 (one `/30` step), and the host cursor is reset to
the base 1. -/
theorem C6_witness :
    (⟨0, 1, 1⟩ : CursorEntry).network + netStep (maskLen mask30) ≤ 4 ∧
    getCursor (postState (NextNetwork (stateAfter [.opInit 0 mask30 1]) mask30))
      (maskLen mask30) = some ⟨4, 1, 1⟩ :=
  ⟨(C6_nextNetwork (stateAfter [.opInit 0 mask30 1]) mask30 ⟨0, 1, 1⟩ 4
      (postState (NextNetwork (stateAfter [.opInit 0 mask30 1]) mask30))
      (by decide) (by decide) (by decide)).1,
   (C6_nextNetwork (stateAfter [.opInit 0 mask30 1]) mask30 ⟨0, 1, 1⟩ 4
      (postState (NextNetwork (stateAfter [.opInit 0 mask30 1]) mask30))
      (by decide) (by decide) (by decide)).2.2.2.2.1⟩

/-- C7 (amended): `GetAddress(mask)` immediately followed by
`NextAddress(mask)` returns the same value from both calls (they agree
on every state, including the error cases), and the `Get*` calls are
pure functions of the state, mutating nothing and registering nothing.
For the network side, however, `GetNetwork` peeks the *current* active
network while `NextNetwork` is a pre-increment, so `GetNetwork`
immediately followed by `NextNetwork` returns a value at least one
network step *larger* — never the same value.  (The original claim's
`GetNetwork`/`NextNetwork` half fails: see `C7_counterexample`.) -/
theorem C7_peek (s : GenState) (m : Nat) :
    GetAddress s m = (NextAddress s m).map Prod.fst ∧
    (∀ g v s', GetNetwork s m = .ok g → NextNetwork s m = .ok (v, s') →
      g + netStep (maskLen m) ≤ v) := by
  constructor
  · rw [GetAddress, NextAddress]
    by_cases hv : isValidMaskB m = true
    · rw [if_pos hv, if_pos hv, GetAddressAt, NextAddressAt]
      split
      · rfl
      · split
        · rfl
        · rfl
    · rw [if_neg hv, if_neg hv]
      rfl
  · intro g v s' hg hn
    rw [GetNetwork] at hg
    rw [NextNetwork] at hn
    by_cases hv : isValidMaskB m = true
    · rw [if_pos hv] at hg hn
      rw [GetNetworkAt] at hg
      split at hg
      · exact absurd hg (by simp)
      · rename_i c hc
        rw [Except.ok.injEq] at hg
        rw [NextNetworkAt] at hn
        split at hn
        · rename_i hc0
          rw [hc0] at hc
          cases hc
        · rename_i c2 hc2
          rw [hc2, Option.some.injEq] at hc
          split at hn
          · exact absurd hn (by simp)
          · rename_i v2 hv2
            rw [Except.ok.injEq] at hn
            obtain ⟨hn1, _⟩ := Prod.mk.injEq _ _ _ _ |>.mp hn.symm
            obtain ⟨k, hk1, hk2, _, _, _⟩ := findFreeNet_spec _ _ _ _ _ _ hv2
            subst hn1
            rw [← hg, ← hc, hk2]
            exact Nat.add_le_add_left (Nat.le_mul_of_pos_left _ hk1) _
    · rw [if_neg hv] at hg
      exact absurd hg (by simp)

/-- C7 counterexample: in the `/30` state with active network 0,
`GetNetwork` returns 0 but the immediately following `NextNetwork`
returns 4 — the peek/commit pair does not return the same value on the
network side. -/
theorem C7_counterexample :
    ¬ (GetNetwork (stateAfter [.opInit 0 mask30 1]) mask30 =
        (NextNetwork (stateAfter [.opInit 0 mask30 1]) mask30).map Prod.fst) := by
  decide

/-- Witness for C7: the address peek/commit pair agrees on a concrete
state, and the concrete network pre-increment jumps from 0 to 4. -/
theorem C7_witness :
    GetAddress (stateAfter [.opInit 0 mask30 1]) mask30 =
      (NextAddress (stateAfter [.opInit 0 mask30 1]) mask30).map Prod.fst ∧
    0 + netStep (maskLen mask30) ≤ 4 :=
  ⟨(C7_peek (stateAfter [.opInit 0 mask30 1]) mask30).1,
   (C7_peek (stateAfter [.opInit 0 mask30 1]) mask30).2 0 4
     (postState (NextNetwork (stateAfter [.opInit 0 mask30 1]) mask30))
     (by decide) (by decide)⟩

end Ipv4AddressGenerator
